import Mathlib

/-!
Verification development for the fakt source-reorganization scripts
(`reorganize_sam_tests_v2.py`, `reorganize_sam_tests.py`,
`split_sam_interfaces.py`).  Text is modelled as `List Char`.  The Python
regexes used by the scripts are alternation-disjoint (each alternative and
each star exit is decided by the next character, and every backtracking
branch is refuted by a one-character argument recorded at the relevant
definition), so each regex is embedded as the equivalent deterministic
scanner.  Loops that are not structurally recursive carry a `Nat` fuel
argument initialised to the length of the scanned list; every iteration
consumes at least one element, so that fuel never runs out on the initial
call and the fuelled function agrees with the unbounded Python loop.
-/

set_option maxRecDepth 40000

namespace Fakt

/-- Opening brace character, kept out of the source text numerically. -/
def lbrace : Char := Char.ofNat 123

/-- Closing brace character. -/
def rbrace : Char := Char.ofNat 125

/-- Backtick character. -/
def btick : Char := Char.ofNat 96

/-- Character-list form of a string literal; all program text is `List Char`. -/
def str (s : String) : List Char := s.toList

/-- ASCII whitespace recognised by Python's regex class for whitespace. -/
def isWs (c : Char) : Bool :=
  c = ' ' || c = '\t' || c = '\n' || c = '\r' || c = Char.ofNat 11 || c = Char.ofNat 12

def isUpper (c : Char) : Bool := 'A' ≤ c && c ≤ 'Z'

def isLower (c : Char) : Bool := 'a' ≤ c && c ≤ 'z'

def isAlpha (c : Char) : Bool := isUpper c || isLower c

def isDigitC (c : Char) : Bool := '0' ≤ c && c ≤ '9'

/-- Word characters of Python's regex word class. -/
def isWordC (c : Char) : Bool := isAlpha c || isDigitC c || c = '_'

/-- Does `p` occur at the very start of `s`?  (Python `str.startswith`.) -/
def startsL : List Char → List Char → Bool
  | [], _ => true
  | _ :: _, [] => false
  | p :: ps, c :: cs => p = c && startsL ps cs

/-- Does `pat` occur as a contiguous substring of `s`?  (Python `pat in s`.) -/
def containsSub : List Char → List Char → Bool
  | [], pat => pat.isEmpty
  | c :: rest, pat => startsL pat (c :: rest) || containsSub rest pat

/-- Python `content.split('\n')`: always at least one piece, empties kept. -/
def splitNL : List Char → List (List Char)
  | [] => [[]]
  | c :: r =>
    if c = '\n' then [] :: splitNL r
    else
      match splitNL r with
      | [] => [[c]]
      | h :: t => (c :: h) :: t

/-- Python `'\n'.join(lines)`. -/
def joinNL : List (List Char) → List Char
  | [] => []
  | [l] => l
  | l :: l2 :: ls => l ++ '\n' :: joinNL (l2 :: ls)

/-- Python `s.strip()` restricted to ASCII whitespace. -/
def stripWs (s : List Char) : List Char :=
  ((s.dropWhile isWs).reverse.dropWhile isWs).reverse

/-- Number of opening braces in a string. -/
def nOpen : List Char → Nat
  | [] => 0
  | c :: r => (if c = lbrace then 1 else 0) + nOpen r

/-- Number of closing braces in a string. -/
def nClose : List Char → Nat
  | [] => 0
  | c :: r => (if c = rbrace then 1 else 0) + nClose r

/-- The parts occur verbatim, in the given order, inside `s`. -/
def appearInOrder : List (List Char) → List Char → Prop
  | [], _ => True
  | p :: ps, s => ∃ pre rest, s = pre ++ p ++ rest ∧ appearInOrder ps rest

/-- Lexicographic comparison on code points (Python string `<=`). -/
def lexLe : List Char → List Char → Bool
  | [], _ => true
  | _ :: _, [] => false
  | a :: xs, b :: ys => if a = b then lexLe xs ys else decide (a < b)

def insertSorted (x : List Char) : List (List Char) → List (List Char)
  | [] => [x]
  | y :: ys => if lexLe x y then x :: y :: ys else y :: insertSorted x ys

/-- Python `sorted` on a set of strings (insertion sort; order by `lexLe`). -/
def sortStrs : List (List Char) → List (List Char)
  | [] => []
  | x :: xs => insertSorted x (sortStrs xs)

/-- First-match association lookup (Python `dict` lookup; keys are unique). -/
def assocGet : List (List Char × List Char) → List Char → Option (List Char)
  | [], _ => none
  | (k, v) :: rest, n => if k = n then some v else assocGet rest n

/-! ### Block extractor of `reorganize_sam_tests_v2.py` (lines 18-40)

The pattern is
`@Test\s+fun\s+`name`\(\)sig\{body\}` where `name` is one or more
non-backtick characters, `sig` is any run of non-open-brace characters, and
`body` is the bounded-depth brace group
`(?:[^{}]|\{(?:[^{}]|\{[^{}]*\})*\})*`.  Every alternative of the pattern is
decided by its first character and every star exit is forced (a quantified
class never contains the character that follows it), so the regex matches
exactly what the deterministic scanners below accept. -/

structure Block where
  name : List Char
  signature : List Char
  body : List Char
  full : List Char
deriving DecidableEq

/-- Strip the literal `p` from the front of `s`. -/
def dropPre : List Char → List Char → Option (List Char)
  | [], s => some s
  | _ :: _, [] => none
  | p :: ps, c :: cs => if p = c then dropPre ps cs else none

/-- One or more whitespace characters, maximal munch. -/
def ws1 : List Char → Option (List Char)
  | [] => none
  | c :: rest => if isWs c then some (rest.dropWhile isWs) else none

/-- The backtick-quoted unit name: one or more non-backticks, then the
closing backtick, which is consumed. -/
def takeName (s : List Char) : Option (List Char × List Char) :=
  match s.takeWhile (fun c => !(c = btick)), s.dropWhile (fun c => !(c = btick)) with
  | [], _ => none
  | _ :: _, [] => none
  | nm, _ :: r2 => some (nm, r2)

/-- The signature: all characters before the first opening brace, which is
consumed.  Fails when no opening brace follows. -/
def takeSig (s : List Char) : Option (List Char × List Char) :=
  match s.dropWhile (fun c => !(c = lbrace)) with
  | [] => none
  | _ :: r2 => some (s.takeWhile (fun c => !(c = lbrace)), r2)

/-- Body scan of the v2 regex: depth-counting with nesting bounded at two
levels below the body start; returns the body and the text after the
closing brace.  Fails at end of text or on a brace opening a third level. -/
def scanBody : Nat → List Char → Option (List Char × List Char)
  | _, [] => none
  | d, c :: rest =>
    if c = lbrace then
      if 2 ≤ d then none
      else
        match scanBody (d + 1) rest with
        | none => none
        | some (b, r) => some (c :: b, r)
    else if c = rbrace then
      if d = 0 then some ([], rest)
      else
        match scanBody (d - 1) rest with
        | none => none
        | some (b, r) => some (c :: b, r)
    else
      match scanBody d rest with
      | none => none
      | some (b, r) => some (c :: b, r)

/-- Unbounded delimiter-balance scan: the spec's §4.1 notion of a unit body
("consume body text by tracking delimiter balance ... until balance returns
to zero"); used to state claims that compare the v2 regex with the spec. -/
def scanBodyU : Nat → List Char → Option (List Char × List Char)
  | _, [] => none
  | d, c :: rest =>
    if c = lbrace then
      match scanBodyU (d + 1) rest with
      | none => none
      | some (b, r) => some (c :: b, r)
    else if c = rbrace then
      if d = 0 then some ([], rest)
      else
        match scanBodyU (d - 1) rest with
        | none => none
        | some (b, r) => some (c :: b, r)
    else
      match scanBodyU d rest with
      | none => none
      | some (b, r) => some (c :: b, r)

/-- Running brace-nesting depths along a body, starting from `d`; the list
has one entry per position, endpoints included. -/
def depthsFrom (d : Nat) : List Char → List Nat
  | [] => [d]
  | c :: rest =>
    d :: depthsFrom (if c = lbrace then d + 1 else if c = rbrace then d - 1 else d) rest

/-- The `full_method` string of line 31: the reassembled test method. -/
def mkFull (nm sg bd : List Char) : List Char :=
  str "    @Test\n    fun `" ++ nm ++ str "`()" ++ sg ++ str " \x7b\n" ++ bd ++ [rbrace]

/-- Attempt the whole v2 test-method pattern at the start of `s`.  On
success, returns the `Block` and the text after the match. -/
def tryMatch (s : List Char) : Option (Block × List Char) :=
  (dropPre (str "@Test") s).bind fun s1 =>
  (ws1 s1).bind fun s2 =>
  (dropPre (str "fun") s2).bind fun s3 =>
  (ws1 s3).bind fun s4 =>
  (dropPre [btick] s4).bind fun s5 =>
  (takeName s5).bind fun p1 =>
  (dropPre (str "()") p1.2).bind fun s7 =>
  (takeSig s7).bind fun p2 =>
  (scanBody 0 p2.2).bind fun p3 =>
  some ({ name := p1.1, signature := stripWs p2.1, body := p3.1,
          full := mkFull p1.1 (stripWs p2.1) p3.1 }, p3.2)

/-- Python `re.finditer` driver: try the pattern at each position; on failure
advance one character, on success continue after the match.  Fuelled; each
step consumes at least one character, so fuel = length suffices. -/
def extractLoopF : Nat → List Char → List Block
  | 0, _ => []
  | _ + 1, [] => []
  | fuel + 1, c :: rest =>
    match tryMatch (c :: rest) with
    | some (b, r) => b :: extractLoopF fuel r
    | none => extractLoopF fuel rest

/-- `extract_all_test_methods` of `reorganize_sam_tests_v2.py` lines 18-40. -/
def extract_all_test_methods (content : List Char) : List Block :=
  extractLoopF content.length content

/-! ### Interface classifier of `reorganize_sam_tests_v2.py` (lines 42-51)

Pattern `fake([A-Z][a-zA-Z]+)\s*[<{(]`, first match wins. -/

/-- Attempt the factory-invocation marker at the start of `s`; returns the
captured capitalized name. -/
def tryFake (s : List Char) : Option (List Char) :=
  match dropPre (str "fake") s with
  | none => none
  | some s1 =>
    match s1 with
    | [] => none
    | c :: r =>
      if isUpper c then
        match r.takeWhile isAlpha, r.dropWhile isAlpha with
        | [], _ => none
        | ls, r2 =>
          match r2.dropWhile isWs with
          | [] => none
          | d :: _ =>
            if d = '(' || d = '<' || d = lbrace then some (c :: ls) else none
      else none

def identifyLoop : List Char → Option (List Char)
  | [] => none
  | c :: rest =>
    match tryFake (c :: rest) with
    | some n => some n
    | none => identifyLoop rest

/-- `identify_interface` of `reorganize_sam_tests_v2.py` lines 42-51:
name of the first factory marker, `none` when there is no match. -/
def identify_interface (s : List Char) : Option (List Char) := identifyLoop s

/-- Claim-side comparison definition, following the claim's words: the
marker must be immediately followed by the invocation delimiter, with no
intervening whitespace. -/
def tryFakeImm (s : List Char) : Option (List Char) :=
  match dropPre (str "fake") s with
  | none => none
  | some s1 =>
    match s1 with
    | [] => none
    | c :: r =>
      if isUpper c then
        match r.takeWhile isAlpha, r.dropWhile isAlpha with
        | [], _ => none
        | ls, r2 =>
          match r2 with
          | [] => none
          | d :: _ =>
            if d = '(' || d = '<' || d = lbrace then some (c :: ls) else none
      else none

/-- Claim-side comparison definition: first strictly-immediate marker. -/
def identifyImmediate : List Char → Option (List Char)
  | [] => none
  | c :: rest =>
    match tryFakeImm (c :: rest) with
    | some n => some n
    | none => identifyImmediate rest

/-! ### Import synthesizer (v2 lines 53-76, v1 lines 168-191) -/

/-- The eight imports the v2 synthesizer can ever emit. -/
def import_universe : List (List Char) :=
  [str "kotlin.test.Test", str "kotlin.test.assertEquals",
   str "kotlin.test.assertTrue", str "kotlin.test.assertFalse",
   str "kotlin.test.assertNull", str "kotlin.test.assertContentEquals",
   str "kotlin.test.assertIs", str "kotlinx.coroutines.test.runTest"]

/-- Token/import rule table of the v2 conditionals. -/
def token_rules : List (List Char × List Char) :=
  [(str "assertTrue", str "kotlin.test.assertTrue"),
   (str "assertFalse", str "kotlin.test.assertFalse"),
   (str "assertNull", str "kotlin.test.assertNull"),
   (str "assertContentEquals", str "kotlin.test.assertContentEquals"),
   (str "assertIs<", str "kotlin.test.assertIs"),
   (str "runTest", str "kotlinx.coroutines.test.runTest")]

/-- `detect_needed_imports` of `reorganize_sam_tests_v2.py` lines 53-76.
The Python set is modelled as a duplicate-free list. -/
def detect_needed_imports (ms : List (List Char)) : List (List Char) :=
  let content := joinNL ms
  [str "kotlin.test.Test", str "kotlin.test.assertEquals"]
  ++ (if containsSub content (str "assertTrue") then [str "kotlin.test.assertTrue"] else [])
  ++ (if containsSub content (str "assertFalse") then [str "kotlin.test.assertFalse"] else [])
  ++ (if containsSub content (str "assertNull") then [str "kotlin.test.assertNull"] else [])
  ++ (if containsSub content (str "assertContentEquals") then [str "kotlin.test.assertContentEquals"] else [])
  ++ (if containsSub content (str "assertIs<") then [str "kotlin.test.assertIs"] else [])
  ++ (if containsSub content (str "runTest") || containsSub content (str "= runTest \x7b") then [str "kotlinx.coroutines.test.runTest"] else [])

/-- Token/import rule table of the v1 conditionals (lines 177-189). -/
def token_rules_v1 : List (List Char × List Char) :=
  [(str "assertTrue", str "kotlin.test.assertTrue"),
   (str "assertFalse", str "kotlin.test.assertFalse"),
   (str "assertNull", str "kotlin.test.assertNull"),
   (str "assertContentEquals", str "kotlin.test.assertContentEquals"),
   (str "assertIs", str "kotlin.test.assertIs"),
   (str "runTest", str "kotlinx.coroutines.test.runTest")]

/-- `detect_needed_imports` of `reorganize_sam_tests.py` lines 168-191. -/
def detect_needed_imports_v1 (ms : List (List Char)) : List (List Char) :=
  let content := joinNL ms
  [str "kotlin.test.Test", str "kotlin.test.assertEquals"]
  ++ (if containsSub content (str "assertTrue") then [str "kotlin.test.assertTrue"] else [])
  ++ (if containsSub content (str "assertFalse") then [str "kotlin.test.assertFalse"] else [])
  ++ (if containsSub content (str "assertNull") then [str "kotlin.test.assertNull"] else [])
  ++ (if containsSub content (str "assertContentEquals") then [str "kotlin.test.assertContentEquals"] else [])
  ++ (if containsSub content (str "assertIs") then [str "kotlin.test.assertIs"] else [])
  ++ (if containsSub content (str "runTest") then [str "kotlinx.coroutines.test.runTest"] else [])

/-! ### File synthesizer of `reorganize_sam_tests_v2.py` (lines 163-200) -/

def copyright_header : List Char :=
  str "// Copyright (C) 2025 Rodrigo Sicarelli\n// SPDX-License-Identifier: Apache-2.0"

def pkg_base : List Char :=
  str "com.rsicarelli.fakt.samples.singleModule.scenarios.sam_interfaces."

/-- Lines built before the test methods (lines 172-191 of the script). -/
def genFront (iname cat : List Char) (ms : List (List Char)) : List (List Char) :=
  [copyright_header,
   str "package " ++ pkg_base ++ cat,
   [],
   str "import " ++ pkg_base ++ cat ++ str "." ++ iname,
   str "import " ++ pkg_base ++ cat ++ str ".fake" ++ iname]
  ++ (sortStrs (detect_needed_imports ms)).map (fun imp => str "import " ++ imp)
  ++ [[],
      str "/**",
      str " * Tests for " ++ iname ++ str " SAM interface.",
      str " */",
      str "class " ++ iname ++ str "Test \x7b",
      []]

/-- Each method line followed by a blank separator line (lines 194-196). -/
def msFlat : List (List Char) → List (List Char)
  | [] => []
  | m :: ms => m :: [] :: msFlat ms

/-- Lines from the first test method to the closing brace. -/
def genTail (ms : List (List Char)) : List (List Char) :=
  msFlat ms ++ [[rbrace]]

/-- `generate_test_file` of `reorganize_sam_tests_v2.py` lines 163-200. -/
def generate_test_file (iname cat : List Char) (ms : List (List Char)) : List Char :=
  joinNL (genFront iname cat ms ++ genTail ms)

/-! ### File synthesizer of `reorganize_sam_tests.py` (lines 193-234) -/

/-- Line 223: every line of a method is re-indented by four spaces. -/
def indentMethod (m : List Char) : List Char :=
  joinNL ((splitNL m).map (fun l => str "    " ++ l))

/-- Lines 221-224: the methods segment of the class body, one re-indented
method per iteration, each framed by blank separator newlines. -/
def v1MethodSeg : List (List Char) → List Char
  | [] => []
  | m :: ms => '\n' :: (indentMethod m ++ '\n' :: v1MethodSeg ms)

/-- Lines 202-210: the package line, a blank, the two artifact-specific
imports, then the sorted detected imports. -/
def v1ImportLines (iname cat : List Char) (ms : List (List Char)) : List (List Char) :=
  [str "package " ++ pkg_base ++ cat,
   [],
   str "import " ++ pkg_base ++ cat ++ str "." ++ iname,
   str "import " ++ pkg_base ++ cat ++ str ".fake" ++ iname]
  ++ (sortStrs (detect_needed_imports_v1 ms)).map (fun imp => str "import " ++ imp)

/-- `generate_test_file` of `reorganize_sam_tests.py` lines 193-234:
header, import block, the triple-quoted class opening, the re-indented
methods, and the closing brace line. -/
def generate_test_file_v1 (iname cat : List Char) (ms : List (List Char)) : List Char :=
  copyright_header ++ ['\n'] ++ joinNL (v1ImportLines iname cat ms) ++ ['\n']
  ++ (str "\n/**\n * Tests for " ++ iname ++ str " SAM interface.\n */\nclass "
      ++ iname ++ str "Test \x7b\n")
  ++ v1MethodSeg ms ++ str "\x7d\n"

/-! ### Category resolver of `reorganize_sam_tests_v2.py` (lines 78-161) -/

def category_map : List (List Char × List Char) :=
  [(str "IntValidator", str "basic"),
   (str "StringFormatter", str "basic"),
   (str "VoidAction", str "basic"),
   (str "AsyncValidator", str "basic"),
   (str "BiFunction", str "basic"),
   (str "NullableHandler", str "basic"),
   (str "Transformer", str "generics"),
   (str "Converter", str "generics"),
   (str "ComparableProcessor", str "generics"),
   (str "MultiConstraintHandler", str "generics"),
   (str "NullableTransformer", str "generics"),
   (str "ListMapper", str "generics"),
   (str "ResultHandler", str "generics"),
   (str "AsyncTransformer", str "generics"),
   (str "ArrayHandler", str "collections"),
   (str "CollectionFilter", str "collections"),
   (str "IterableProcessor", str "collections"),
   (str "ListProcessor", str "collections"),
   (str "MapProcessor", str "collections"),
   (str "MapTransformer", str "collections"),
   (str "MapWithFunction", str "collections"),
   (str "MutableListHandler", str "collections"),
   (str "NestedCollectionHandler", str "collections"),
   (str "SetFilter", str "collections"),
   (str "SetTransformer", str "collections"),
   (str "ErrorHandler", str "stdlib_types"),
   (str "LazyProvider", str "stdlib_types"),
   (str "PairMapper", str "stdlib_types"),
   (str "PairProcessor", str "stdlib_types"),
   (str "ResultFunctionHandler", str "stdlib_types"),
   (str "ResultProcessor", str "stdlib_types"),
   (str "SequenceFilter", str "stdlib_types"),
   (str "SequenceMapper", str "stdlib_types"),
   (str "TripleAggregator", str "stdlib_types"),
   (str "TripleProcessor", str "stdlib_types"),
   (str "ActionWrapper", str "higher_order"),
   (str "CallbackHandler", str "higher_order"),
   (str "FunctionComposer", str "higher_order"),
   (str "FunctionExecutor", str "higher_order"),
   (str "PredicateCombiner", str "higher_order"),
   (str "PredicateFilter", str "higher_order"),
   (str "ResultFunctionMapper", str "higher_order"),
   (str "SuspendExecutor", str "higher_order"),
   (str "TransformChain", str "higher_order"),
   (str "AsyncProducer", str "variance"),
   (str "BivariantMapper", str "variance"),
   (str "Consumer", str "variance"),
   (str "ContravariantConsumer", str "variance"),
   (str "ContravariantListConsumer", str "variance"),
   (str "CovariantListProducer", str "variance"),
   (str "CovariantProducer", str "variance"),
   (str "InvariantTransformer", str "variance"),
   (str "ListConsumer", str "variance"),
   (str "Producer", str "variance"),
   (str "ResultProducer", str "variance"),
   (str "VariantTransformer", str "variance"),
   (str "ArrayProcessor", str "edge_cases"),
   (str "ComplexBoundHandler", str "edge_cases"),
   (str "IntArrayProcessor", str "edge_cases"),
   (str "NestedGenericMapper", str "edge_cases"),
   (str "RecursiveComparator", str "edge_cases"),
   (str "RecursiveGeneric", str "edge_cases"),
   (str "StarProjectionHandler", str "edge_cases"),
   (str "VarargsProcessor", str "edge_cases")]

/-- `get_category_for_interface` of lines 78-161: table lookup with the
sentinel default. -/
def get_category_for_interface (n : List Char) : List Char :=
  (assocGet category_map n).getD (str "unknown")

/-! ### Orchestrator of `reorganize_sam_tests_v2.py` (`main`, lines 202-277)

The aggregation state is the insertion-ordered table
`tests_by_interface` plus the record of the could-not-identify warnings the
script prints (one per unclassified block). -/

abbrev Tbl := List (List Char × List (List Char))

/-- `tests_by_interface.setdefault(n, []).append(f)`. -/
def insertTest : Tbl → List Char → List Char → Tbl
  | [], n, f => [(n, [f])]
  | (k, vs) :: rest, n, f =>
    if k = n then (k, vs ++ [f]) :: rest else (k, vs) :: insertTest rest n f

/-- Insertion-ordered lookup with `[]` default. -/
def tblGet : Tbl → List Char → List (List Char)
  | [], _ => []
  | (k, vs) :: rest, n => if k = n then vs else tblGet rest n

/-- One iteration of the inner loop of `main` (lines 233-240). -/
def procTest (st : Tbl × List Block) (t : Block) : Tbl × List Block :=
  match identify_interface t.body with
  | some n => (insertTest st.1 n t.full, st.2)
  | none => (st.1, st.2 ++ [t])

def procTests (st : Tbl × List Block) : List Block → Tbl × List Block
  | [] => st
  | t :: ts => procTests (procTest st t) ts

/-- Processing one source document (lines 230-240). -/
def procDoc (st : Tbl × List Block) (content : List Char) : Tbl × List Block :=
  procTests st (extract_all_test_methods content)

def procDocs (st : Tbl × List Block) : List (List Char) → Tbl × List Block
  | [] => st
  | d :: ds => procDocs (procDoc st d) ds

/-- The whole collection pass of `main` over the document contents. -/
def processDocs (docs : List (List Char)) : Tbl × List Block :=
  procDocs ([], []) docs

/-- Blocks that end up assigned to `iface`: document-processing order first,
then in-document appearance order. -/
def blocksFor (iface : List Char) (docs : List (List Char)) : List Block :=
  match docs with
  | [] => []
  | d :: ds =>
    (extract_all_test_methods d).filter
      (fun t => decide (identify_interface t.body = some iface))
    ++ blocksFor iface ds

/-- All blocks extracted across the documents, in processing order. -/
def allBlocks : List (List Char) → List Block
  | [] => []
  | d :: ds => extract_all_test_methods d ++ allBlocks ds

/-- The generation loop of `main` (lines 246-264): per-interface destination
texts, and the interfaces skipped for unknown category. -/
def synthesizeAll : Tbl → List ((List Char × List Char) × List Char) × List (List Char)
  | [] => ([], [])
  | (n, ms) :: rest =>
    let p := synthesizeAll rest
    let c := get_category_for_interface n
    if c = str "unknown" then (p.1, n :: p.2)
    else (((n, c), generate_test_file n c ms) :: p.1, p.2)

/-! ### Flat-mode grouping of `reorganize_sam_tests.py` (lines 139-156) -/

/-- The membership test of line 151: the factory name or the interface name
occurs in the method text. -/
def flatHit (n m : List Char) : Bool :=
  containsSub m (str "fake" ++ n) || containsSub m n

/-- `grouped_tests.setdefault(key, []).extend(ts)`. -/
def addBucket : List ((List Char × List Char) × List (List Char)) →
    (List Char × List Char) → List (List Char) →
    List ((List Char × List Char) × List (List Char))
  | [], k, ts => [(k, ts)]
  | (k2, vs) :: rest, k, ts =>
    if k2 = k then (k2, vs ++ ts) :: rest else (k2, vs) :: addBucket rest k ts

/-- First-match bucket lookup with `[]` default. -/
def bucketOf : List ((List Char × List Char) × List (List Char)) →
    (List Char × List Char) → List (List Char)
  | [], _ => []
  | (k2, vs) :: rest, k => if k2 = k then vs else bucketOf rest k

/-- Candidate loop of the flat-mode branch, carrying the accumulated
`grouped_tests` table. -/
def groupFlatGo (methods : List (List Char))
    (acc : List ((List Char × List Char) × List (List Char))) :
    List (List Char × List Char) →
    List ((List Char × List Char) × List (List Char))
  | [] => acc
  | (n, c) :: rest =>
    let ts := methods.filter (fun m => flatHit n m)
    if ts.isEmpty then groupFlatGo methods acc rest
    else groupFlatGo methods (addBucket acc (n, c) ts) rest

/-- The flat-mode branch of `group_tests_by_interface` (lines 141-156): each
candidate `(interface, category)` collects every extracted method that
mentions it; empty collections are not inserted. -/
def group_tests_flat (methods : List (List Char))
    (mapping : List (List Char × List Char)) :
    List ((List Char × List Char) × List (List Char)) :=
  groupFlatGo methods [] mapping

/-! ### Interface splitter of `split_sam_interfaces.py` (lines 24-89) -/

structure SamIface where
  name : List Char
  category : List Char
  comment : List Char
  ifaceText : List Char
deriving DecidableEq

def phase_mapping : List (List Char × List Char) :=
  [(str "Phase 1", str "basic"),
   (str "Phase 2", str "generics"),
   (str "Phase 4", str "collections"),
   (str "Phase 5", str "stdlib_types"),
   (str "Phase 6", str "higher_order"),
   (str "Phase 7", str "variance"),
   (str "Phase 8", str "edge_cases")]

/-- Anchored match of the phase-header pattern: the literal slashes and
`Phase`, then digits, then a colon; yields the captured phase label. -/
def parsePhase (line : List Char) : Option (List Char) :=
  match dropPre (str "// Phase ") line with
  | none => none
  | some r =>
    match r.takeWhile isDigitC, r.dropWhile isDigitC with
    | [], _ => none
    | _ :: _, [] => none
    | ds, c :: _ => if c = ':' then some (str "Phase " ++ ds) else none

/-- Lines 39-44: phase headers update the current category; an unmapped
phase clears it, a non-matching line leaves it unchanged. -/
def updateCat (cat : Option (List Char)) (line : List Char) : Option (List Char) :=
  if startsL (str "// Phase") line then
    match parsePhase line with
    | some ph => assocGet phase_mapping ph
    | none => cat
  else cat

/-- Anchored match of the interface-declaration pattern: leading whitespace,
the literal declaration keywords, then one or more word characters. -/
def parseIfaceName (line : List Char) : Option (List Char) :=
  match dropPre (str "fun interface ") (line.dropWhile isWs) with
  | none => none
  | some r =>
    match r.takeWhile isWordC with
    | [] => none
    | nm => some nm

/-- Lines 72-76: consume lines while the running brace count stays positive;
the count may still be positive when the input runs out, in which case
everything consumed so far is kept. -/
def braceLoop (cnt : Int) : List (List Char) → List (List Char) × List (List Char)
  | [] => ([], [])
  | l :: rest =>
    if 0 < cnt then
      let p := braceLoop (cnt + ((nOpen l : Int) - (nClose l : Int))) rest
      (l :: p.1, p.2)
    else ([], l :: rest)

/-- Lines 47-85: from a line opening a doc comment, find the `@Fake` marker,
then the interface declaration, then consume its body by line-level brace
counting.  Returns the extracted interface and the remaining lines. -/
def samAttempt (cat : List Char) (ls : List (List Char)) :
    Option (SamIface × List (List Char)) :=
  let comment := ls.takeWhile (fun l => !(startsL (str "@Fake") (stripWs l)))
  match ls.dropWhile (fun l => !(startsL (str "@Fake") (stripWs l))) with
  | [] => none
  | fl :: rest3 =>
    if stripWs fl = str "@Fake" then
      match rest3.dropWhile (fun l => !(startsL (str "fun interface") (stripWs l))) with
      | [] => none
      | il :: rest5 =>
        match parseIfaceName il with
        | none => none
        | some nm =>
          let p := braceLoop 1 rest5
          some ({ name := nm, category := cat, comment := joinNL comment,
                  ifaceText := joinNL (il :: p.1) }, p.2)
    else none

/-- Main loop of `extract_sam_interfaces` (lines 34-87).  Fuelled; every
iteration drops at least the current line, so fuel = number of lines
suffices. -/
def samLoopF : Nat → Option (List Char) → List (List Char) → List SamIface
  | 0, _, _ => []
  | _ + 1, _, [] => []
  | fuel + 1, cat, line :: rest =>
    let cat2 := updateCat cat line
    match cat2 with
    | some c =>
      if startsL (str "/**") (stripWs line) then
        match samAttempt c (line :: rest) with
        | some (itf, after) => itf :: samLoopF fuel cat2 after
        | none => samLoopF fuel cat2 rest
      else samLoopF fuel cat2 rest
    | none => samLoopF fuel cat2 rest

/-- `extract_sam_interfaces` of `split_sam_interfaces.py` lines 24-89. -/
def extract_sam_interfaces (content : List Char) : List SamIface :=
  samLoopF (splitNL content).length none (splitNL content)

/-- Claim-side delimiter condition: the document opens a brace at some point
and its running balance never returns to zero afterwards. -/
def nvBal (opened : Bool) (bal : Int) : List Char → Bool
  | [] => opened
  | c :: r =>
    let b2 := bal + (if c = lbrace then 1 else if c = rbrace then -1 else 0)
    let op2 := opened || c = lbrace
    if op2 && decide (b2 = 0) then false else nvBal op2 b2 r

def neverBalances (s : List Char) : Bool := nvBal false 0 s

/-! ### Concrete documents used by counterexamples and witnesses -/

/-- Malformed document: the interface brace never closes. -/
def c2doc : List Char :=
  str "// Phase 1: Basic\n/**\n@Fake\nfun interface Foo \x7b\n    fun bar()"

/-- Document whose signature region contains a stray closing brace. -/
def c4doc : List Char := str "@Test fun `a`()\x7d \x7bx\x7d"

/-- Well-formed one-unit document. -/
def c4good : List Char := str "@Test fun `ok`() \x7by()\x7d"

/-- The block the v2 extractor produces from `c4good`. -/
def c4blk : Block :=
  { name := str "ok", signature := [], body := str "y()",
    full := mkFull (str "ok") [] (str "y()") }

/-- Three flat units; the middle one nests braces three levels deep. -/
def c9demo : List Char :=
  str "@Test fun `one`() \x7ba\x7d\n@Test fun `two`() \x7bm\x7bn\x7bo\x7bp\x7d\x7d\x7dq\x7d\n@Test fun `three`() \x7bz\x7d"

/-- Body with a factory marker separated from its delimiter by a space. -/
def c3body : List Char := str "fakeFoo (x)"

/-- A one-unit document whose body spans two lines; the whole document is
exactly the span the v1 method pattern captures for it. -/
def c1method : List Char := str "@Test\n    fun `a`() \x7b\n    x()\n    y()\x7d"

/-- The delimiter-balance body of the unit in `c1method`. -/
def c1body : List Char := str "\n    x()\n    y()"

/-! ## Substring lemmas -/

theorem startsL_extend {p s : List Char} (t : List Char) (h : startsL p s = true) :
    startsL p (s ++ t) = true := by
  induction p generalizing s with
  | nil => simp [startsL]
  | cons a ps ih =>
    cases s with
    | nil => simp [startsL] at h
    | cons c cs =>
      simp only [startsL, Bool.and_eq_true, decide_eq_true_eq] at h
      simp only [List.cons_append, startsL, Bool.and_eq_true, decide_eq_true_eq]
      exact ⟨h.1, ih h.2⟩

theorem startsL_split {a b s : List Char} (h : startsL (a ++ b) s = true) :
    ∃ s2, s = a ++ s2 ∧ startsL b s2 = true := by
  induction a generalizing s with
  | nil => exact ⟨s, rfl, h⟩
  | cons x xs ih =>
    cases s with
    | nil => simp [startsL] at h
    | cons c cs =>
      simp only [List.cons_append, startsL, Bool.and_eq_true, decide_eq_true_eq] at h
      obtain ⟨s2, h1, h2⟩ := ih h.2
      exact ⟨s2, by simp [h.1, h1], h2⟩

theorem containsSub_nil_pat (s : List Char) : containsSub s [] = true := by
  cases s <;> simp [containsSub, startsL]

theorem containsSub_of_startsL {p s : List Char} (h : startsL p s = true) :
    containsSub s p = true := by
  cases s with
  | nil =>
    cases p with
    | nil => simp [containsSub]
    | cons a ps => simp [startsL] at h
  | cons c cs => simp [containsSub, h]

theorem containsSub_cons {s p : List Char} (c : Char) (h : containsSub s p = true) :
    containsSub (c :: s) p = true := by
  simp [containsSub, h]

theorem containsSub_append_left {s p : List Char} (x : List Char)
    (h : containsSub s p = true) : containsSub (x ++ s) p = true := by
  induction x with
  | nil => exact h
  | cons c cs ih => exact containsSub_cons c ih

theorem containsSub_append_right {s p : List Char} (x : List Char)
    (h : containsSub s p = true) : containsSub (s ++ x) p = true := by
  induction s with
  | nil =>
    simp only [containsSub, List.isEmpty_iff] at h
    subst h
    simpa using containsSub_nil_pat x
  | cons c cs ih =>
    simp only [containsSub, Bool.or_eq_true] at h
    rcases h with h | h
    · simp only [List.cons_append, containsSub, Bool.or_eq_true]
      exact Or.inl (startsL_extend x h)
    · simp only [List.cons_append, containsSub, Bool.or_eq_true]
      exact Or.inr (ih h)

theorem containsSub_pat_tail {m a b : List Char}
    (h : containsSub m (a ++ b) = true) : containsSub m b = true := by
  induction m with
  | nil =>
    simp only [containsSub, List.isEmpty_iff, List.append_eq_nil] at h
    simp [containsSub, h.2]
  | cons c cs ih =>
    simp only [containsSub, Bool.or_eq_true] at h
    rcases h with h | h
    · obtain ⟨s2, h1, h2⟩ := startsL_split h
      rw [h1]
      exact containsSub_append_left a (containsSub_of_startsL h2)
    · exact containsSub_cons c (ih h)

/-! ## Join and counting lemmas -/

theorem joinNL_cons {l : List Char} {ls : List (List Char)} (h : ls ≠ []) :
    joinNL (l :: ls) = l ++ '\n' :: joinNL ls := by
  cases ls with
  | nil => exact absurd rfl h
  | cons l2 t => rfl

theorem joinNL_append {xs ys : List (List Char)} (hx : xs ≠ []) (hy : ys ≠ []) :
    joinNL (xs ++ ys) = joinNL xs ++ '\n' :: joinNL ys := by
  induction xs with
  | nil => exact absurd rfl hx
  | cons x xs ih =>
    cases xs with
    | nil =>
      cases ys with
      | nil => exact absurd rfl hy
      | cons y t => simp [joinNL]
    | cons x2 t =>
      rw [List.cons_append, joinNL_cons (by simp), ih (by simp),
        show joinNL (x :: x2 :: t) = x ++ '\n' :: joinNL (x2 :: t) from
          joinNL_cons (by simp)]
      simp

theorem nOpen_append (a b : List Char) : nOpen (a ++ b) = nOpen a + nOpen b := by
  induction a with
  | nil => simp [nOpen]
  | cons c cs ih => simp [nOpen, ih]; omega

theorem nClose_append (a b : List Char) : nClose (a ++ b) = nClose a + nClose b := by
  induction a with
  | nil => simp [nClose]
  | cons c cs ih => simp [nClose, ih]; omega

theorem nOpen_joinNL (ls : List (List Char)) :
    nOpen (joinNL ls) = (ls.map nOpen).sum := by
  induction ls with
  | nil => simp [joinNL, nOpen]
  | cons l t ih =>
    cases t with
    | nil => simp [joinNL]
    | cons l2 t2 =>
      rw [joinNL_cons (by simp), nOpen_append]
      have : nOpen ('\n' :: joinNL (l2 :: t2)) = nOpen (joinNL (l2 :: t2)) := by
        simp [nOpen, lbrace]
      rw [this, ih]
      simp

theorem nClose_joinNL (ls : List (List Char)) :
    nClose (joinNL ls) = (ls.map nClose).sum := by
  induction ls with
  | nil => simp [joinNL, nClose]
  | cons l t ih =>
    cases t with
    | nil => simp [joinNL]
    | cons l2 t2 =>
      rw [joinNL_cons (by simp), nClose_append]
      have : nClose ('\n' :: joinNL (l2 :: t2)) = nClose (joinNL (l2 :: t2)) := by
        simp [nClose, rbrace]
      rw [this, ih]
      simp

/-! ## Body-scanner lemmas -/

theorem lbrace_ne_rbrace : ¬ lbrace = rbrace := by decide

theorem rbrace_ne_lbrace : ¬ rbrace = lbrace := by decide

theorem depthsFrom_head_le {d : Nat} {b : List Char}
    (h : (depthsFrom d b).all (fun x => decide (x ≤ 2)) = true) : d ≤ 2 := by
  cases b with
  | nil => simpa [depthsFrom] using h
  | cons c rest =>
    simp only [depthsFrom, List.all_cons, Bool.and_eq_true, decide_eq_true_eq] at h
    exact h.1

theorem scanBodyU_balance :
    ∀ (s : List Char) (d : Nat) (b r : List Char),
      scanBodyU d s = some (b, r) → nClose b = d + nOpen b := by
  intro s
  induction s with
  | nil => intro d b r h; simp [scanBodyU] at h
  | cons c rest ih =>
    intro d b r h
    by_cases h1 : c = lbrace
    · subst h1
      cases hs : scanBodyU (d + 1) rest with
      | none => simp [scanBodyU, hs] at h
      | some p =>
        obtain ⟨b2, r2⟩ := p
        simp [scanBodyU, hs] at h
        obtain ⟨hb, hr⟩ := h
        subst hb
        have := ih (d + 1) b2 r2 hs
        simp [nOpen, nClose, lbrace_ne_rbrace]
        omega
    · by_cases h2 : c = rbrace
      · subst h2
        by_cases h3 : d = 0
        · simp [scanBodyU, h1, h3] at h
          obtain ⟨hb, hr⟩ := h
          simp [hb, h3, nOpen, nClose]
        · cases hs : scanBodyU (d - 1) rest with
          | none => simp [scanBodyU, hs, h1, h3] at h
          | some p =>
            obtain ⟨b2, r2⟩ := p
            simp [scanBodyU, hs, h1, h3] at h
            obtain ⟨hb, hr⟩ := h
            subst hb
            have := ih (d - 1) b2 r2 hs
            simp [nOpen, nClose, rbrace_ne_lbrace]
            omega
      · cases hs : scanBodyU d rest with
        | none => simp [scanBodyU, hs, h1, h2] at h
        | some p =>
          obtain ⟨b2, r2⟩ := p
          simp [scanBodyU, hs, h1, h2] at h
          obtain ⟨hb, hr⟩ := h
          subst hb
          have := ih d b2 r2 hs
          simp [nOpen, nClose, h1, h2]
          omega

theorem scanBody_toU :
    ∀ (s : List Char) (d : Nat), d ≤ 2 → ∀ b r, scanBody d s = some (b, r) →
      scanBodyU d s = some (b, r) ∧
        (depthsFrom d b).all (fun x => decide (x ≤ 2)) = true := by
  intro s
  induction s with
  | nil => intro d _ b r h; simp [scanBody] at h
  | cons c rest ih =>
    intro d hd b r h
    by_cases h1 : c = lbrace
    · subst h1
      by_cases h2 : 2 ≤ d
      · simp [scanBody, h2] at h
      · cases hs : scanBody (d + 1) rest with
        | none => simp [scanBody, hs, h2] at h
        | some p =>
          obtain ⟨b2, r2⟩ := p
          simp [scanBody, hs, h2] at h
          obtain ⟨hb, hr⟩ := h
          subst hb; subst hr
          obtain ⟨hU, hall⟩ := ih (d + 1) (by omega) b2 r2 hs
          refine ⟨by simp [scanBodyU, hU], ?_⟩
          simp [depthsFrom, hd, hall]
    · by_cases h2 : c = rbrace
      · subst h2
        by_cases h3 : d = 0
        · simp [scanBody, h1, h3] at h
          obtain ⟨hb, hr⟩ := h
          refine ⟨by simp [scanBodyU, h1, h3, hb, hr], ?_⟩
          simp [hb, h3, depthsFrom]
        · cases hs : scanBody (d - 1) rest with
          | none => simp [scanBody, hs, h1, h3] at h
          | some p =>
            obtain ⟨b2, r2⟩ := p
            simp [scanBody, hs, h1, h3] at h
            obtain ⟨hb, hr⟩ := h
            subst hb; subst hr
            obtain ⟨hU, hall⟩ := ih (d - 1) (by omega) b2 r2 hs
            refine ⟨by simp [scanBodyU, h1, h3, hU], ?_⟩
            simp [depthsFrom, rbrace_ne_lbrace, hd, hall]
      · cases hs : scanBody d rest with
        | none => simp [scanBody, hs, h1, h2] at h
        | some p =>
          obtain ⟨b2, r2⟩ := p
          simp [scanBody, hs, h1, h2] at h
          obtain ⟨hb, hr⟩ := h
          subst hb; subst hr
          obtain ⟨hU, hall⟩ := ih d hd b2 r2 hs
          refine ⟨by simp [scanBodyU, h1, h2, hU], ?_⟩
          simp [depthsFrom, h1, h2, hd, hall]

theorem depthsAll_lb {d : Nat} {b : List Char} :
    (depthsFrom d (lbrace :: b)).all (fun x => decide (x ≤ 2)) = true ↔
      (d ≤ 2 ∧ (depthsFrom (d + 1) b).all (fun x => decide (x ≤ 2)) = true) := by
  simp [depthsFrom]

theorem depthsAll_rb {d : Nat} {b : List Char} :
    (depthsFrom d (rbrace :: b)).all (fun x => decide (x ≤ 2)) = true ↔
      (d ≤ 2 ∧ (depthsFrom (d - 1) b).all (fun x => decide (x ≤ 2)) = true) := by
  simp [depthsFrom, rbrace_ne_lbrace]

theorem depthsAll_other {d : Nat} {b : List Char} {c : Char}
    (h1 : ¬ c = lbrace) (h2 : ¬ c = rbrace) :
    (depthsFrom d (c :: b)).all (fun x => decide (x ≤ 2)) = true ↔
      (d ≤ 2 ∧ (depthsFrom d b).all (fun x => decide (x ≤ 2)) = true) := by
  simp [depthsFrom, h1, h2]

theorem scanBody_ofU :
    ∀ (s : List Char) (d : Nat) (b r : List Char),
      scanBodyU d s = some (b, r) →
      (depthsFrom d b).all (fun x => decide (x ≤ 2)) = true →
      scanBody d s = some (b, r) := by
  intro s
  induction s with
  | nil => intro d b r h _; simp [scanBodyU] at h
  | cons c rest ih =>
    intro d b r h hall
    by_cases h1 : c = lbrace
    · subst h1
      cases hs : scanBodyU (d + 1) rest with
      | none => simp [scanBodyU, hs] at h
      | some p =>
        obtain ⟨b2, r2⟩ := p
        simp [scanBodyU, hs] at h
        obtain ⟨hb, hr⟩ := h
        subst hb; subst hr
        rw [depthsAll_lb] at hall
        have hd1 : d + 1 ≤ 2 := depthsFrom_head_le hall.2
        have := ih (d + 1) b2 r2 hs hall.2
        have hlt : ¬ 2 ≤ d := by omega
        simp [scanBody, hlt, this]
    · by_cases h2 : c = rbrace
      · subst h2
        by_cases h3 : d = 0
        · simp [scanBodyU, h1, h3] at h
          obtain ⟨hb, hr⟩ := h
          simp [scanBody, h1, h3, hb, hr]
        · cases hs : scanBodyU (d - 1) rest with
          | none => simp [scanBodyU, hs, h1, h3] at h
          | some p =>
            obtain ⟨b2, r2⟩ := p
            simp [scanBodyU, hs, h1, h3] at h
            obtain ⟨hb, hr⟩ := h
            subst hb; subst hr
            rw [depthsAll_rb] at hall
            have := ih (d - 1) b2 r2 hs hall.2
            simp [scanBody, h1, h3, this]
      · cases hs : scanBodyU d rest with
        | none => simp [scanBodyU, hs, h1, h2] at h
        | some p =>
          obtain ⟨b2, r2⟩ := p
          simp [scanBodyU, hs, h1, h2] at h
          obtain ⟨hb, hr⟩ := h
          subst hb; subst hr
          rw [depthsAll_other h1 h2] at hall
          have := ih d b2 r2 hs hall.2
          simp [scanBody, h1, h2, this]


theorem scanBody_balance {s b r : List Char} (h : scanBody 0 s = some (b, r)) :
    nOpen b = nClose b := by
  have := scanBodyU_balance s 0 b r (scanBody_toU s 0 (by omega) b r h).1
  omega

/-! ## Extractor invariants -/

theorem tryMatch_inv {s r : List Char} {t : Block} (h : tryMatch s = some (t, r)) :
    t.full = mkFull t.name t.signature t.body ∧ nOpen t.body = nClose t.body := by
  simp only [tryMatch, Option.bind_eq_some, Option.some.injEq, Prod.mk.injEq] at h
  obtain ⟨s1, -, s2, -, s3, -, s4, -, s5, -, p1, -, s7, -, p2, -, p3, h9, ht, -⟩ := h
  obtain ⟨b3, r3⟩ := p3
  constructor
  · rw [← ht]
  · rw [← ht]
    exact scanBody_balance h9

theorem extract_inv :
    ∀ (fuel : Nat) (s : List Char) (t : Block), t ∈ extractLoopF fuel s →
      t.full = mkFull t.name t.signature t.body ∧ nOpen t.body = nClose t.body := by
  intro fuel
  induction fuel with
  | zero => intro s t h; simp [extractLoopF] at h
  | succ n ih =>
    intro s t h
    cases s with
    | nil => simp [extractLoopF] at h
    | cons c rest =>
      simp only [extractLoopF] at h
      cases hm : tryMatch (c :: rest) with
      | none => rw [hm] at h; exact ih rest t h
      | some p =>
        obtain ⟨b, r⟩ := p
        rw [hm] at h
        rcases List.mem_cons.mp h with h | h
        · subst h; exact tryMatch_inv hm
        · exact ih r t h

theorem extract_all_inv {content : List Char} {t : Block}
    (h : t ∈ extract_all_test_methods content) :
    t.full = mkFull t.name t.signature t.body ∧ nOpen t.body = nClose t.body :=
  extract_inv content.length content t h

/-! ## Orchestrator bridge lemmas -/

theorem tblGet_insertTest (tbl : Tbl) (n f m : List Char) :
    tblGet (insertTest tbl n f) m =
      if m = n then tblGet tbl m ++ [f] else tblGet tbl m := by
  induction tbl with
  | nil =>
    by_cases hmn : m = n
    · subst hmn; simp [insertTest, tblGet]
    · have hnm : ¬ n = m := fun h => hmn h.symm
      simp [insertTest, tblGet, hmn, hnm]
  | cons e rest ih =>
    obtain ⟨k, vs⟩ := e
    by_cases hkn : k = n
    · subst hkn
      by_cases hkm : k = m
      · subst hkm; simp [insertTest, tblGet]
      · have hmk : ¬ m = k := fun h => hkm h.symm
        simp [insertTest, tblGet, hkm, hmk]
    · by_cases hkm : k = m
      · subst hkm
        simp [insertTest, tblGet, hkn]
      · simp [insertTest, tblGet, hkn, hkm, ih]

theorem procTests_warns :
    ∀ (ts : List Block) (st : Tbl × List Block),
      (procTests st ts).2 =
        st.2 ++ ts.filter (fun t => decide (identify_interface t.body = none)) := by
  intro ts
  induction ts with
  | nil => intro st; simp [procTests]
  | cons t ts ih =>
    intro st
    simp only [procTests]
    rw [ih]
    cases hid : identify_interface t.body with
    | none => simp [procTest, hid, List.filter_cons]
    | some n => simp [procTest, hid, List.filter_cons]

theorem procTests_tbl :
    ∀ (ts : List Block) (st : Tbl × List Block) (m : List Char),
      tblGet (procTests st ts).1 m =
        tblGet st.1 m ++
          (ts.filter (fun t => decide (identify_interface t.body = some m))).map
            Block.full := by
  intro ts
  induction ts with
  | nil => intro st m; simp [procTests]
  | cons t ts ih =>
    intro st m
    simp only [procTests]
    rw [ih]
    cases hid : identify_interface t.body with
    | none => simp [procTest, hid, List.filter_cons]
    | some n =>
      simp only [procTest, hid]
      rw [tblGet_insertTest]
      by_cases hnm : m = n
      · subst hnm; simp [List.filter_cons, hid]
      · have : ¬ n = m := fun h => hnm h.symm
        simp [List.filter_cons, hid, hnm, this]

theorem procDocs_tbl :
    ∀ (docs : List (List Char)) (st : Tbl × List Block) (m : List Char),
      tblGet (procDocs st docs).1 m =
        tblGet st.1 m ++ (blocksFor m docs).map Block.full := by
  intro docs
  induction docs with
  | nil => intro st m; simp [procDocs, blocksFor]
  | cons d ds ih =>
    intro st m
    simp only [procDocs, blocksFor]
    rw [ih, procDoc, procTests_tbl]
    simp [List.map_append, List.append_assoc]

theorem procDocs_warns :
    ∀ (docs : List (List Char)) (st : Tbl × List Block),
      (procDocs st docs).2 =
        st.2 ++ (allBlocks docs).filter
          (fun t => decide (identify_interface t.body = none)) := by
  intro docs
  induction docs with
  | nil => intro st; simp [procDocs, allBlocks]
  | cons d ds ih =>
    intro st
    simp only [procDocs, allBlocks]
    rw [ih, procDoc, procTests_warns]
    simp [List.filter_append, List.append_assoc]

theorem processDocs_tbl (docs : List (List Char)) (m : List Char) :
    tblGet (processDocs docs).1 m = (blocksFor m docs).map Block.full := by
  have := procDocs_tbl docs ([], []) m
  simpa [processDocs, tblGet] using this

theorem processDocs_warns (docs : List (List Char)) :
    (processDocs docs).2 =
      (allBlocks docs).filter (fun t => decide (identify_interface t.body = none)) := by
  have := procDocs_warns docs ([], [])
  simpa [processDocs] using this

/-! ## Sorting and import-set lemmas -/

theorem mem_insertSorted {x y : List Char} {l : List (List Char)} :
    x ∈ insertSorted y l ↔ x = y ∨ x ∈ l := by
  induction l with
  | nil => simp [insertSorted]
  | cons z zs ih =>
    simp only [insertSorted]
    by_cases h : lexLe y z
    · simp [h]
    · simp only [h, if_false, Bool.false_eq_true, List.mem_cons, ih]
      tauto

theorem mem_sortStrs {x : List Char} {l : List (List Char)} :
    x ∈ sortStrs l ↔ x ∈ l := by
  induction l with
  | nil => simp [sortStrs]
  | cons z zs ih => simp [sortStrs, mem_insertSorted, ih]

theorem mem_optIf {x a : List Char} {c : Prop} [Decidable c] :
    x ∈ (if c then [a] else ([] : List (List Char))) ↔ c ∧ x = a := by
  by_cases h : c <;> simp [h]

theorem detect_subset {ms : List (List Char)} {x : List Char}
    (h : x ∈ detect_needed_imports ms) : x ∈ import_universe := by
  simp only [detect_needed_imports, List.mem_append, List.mem_cons,
    List.not_mem_nil, or_false, mem_optIf] at h
  simp only [import_universe, List.mem_cons, List.not_mem_nil, or_false]
  tauto

theorem detect_no_braces {ms : List (List Char)} {x : List Char}
    (h : x ∈ detect_needed_imports ms) : nOpen x = 0 ∧ nClose x = 0 := by
  have hu := detect_subset h
  simp only [import_universe, List.mem_cons, List.not_mem_nil, or_false] at hu
  rcases hu with rfl | rfl | rfl | rfl | rfl | rfl | rfl | rfl <;> constructor <;> decide

/-! ## File-synthesizer decomposition -/

theorem genTail_ne_nil (ms : List (List Char)) : genTail ms ≠ [] := by
  cases ms <;> simp [genTail, msFlat]

theorem genFront_ne_nil (iname cat : List Char) (ms : List (List Char)) :
    genFront iname cat ms ≠ [] := by
  simp [genFront]

theorem joinNL_genTail_cons (m : List Char) (ms : List (List Char)) :
    joinNL (genTail (m :: ms)) = m ++ '\n' :: '\n' :: joinNL (genTail ms) := by
  show joinNL (m :: [] :: genTail ms) = _
  rw [joinNL_cons (by simp), joinNL_cons (genTail_ne_nil ms)]
  simp

theorem generate_decomp (iname cat : List Char) (ms : List (List Char)) :
    generate_test_file iname cat ms =
      joinNL (genFront iname cat ms) ++ '\n' :: joinNL (genTail ms) :=
  joinNL_append (genFront_ne_nil iname cat ms) (genTail_ne_nil ms)

theorem appearInOrder_appendL {ps : List (List Char)} {s : List Char}
    (t : List Char) (h : appearInOrder ps s) : appearInOrder ps (t ++ s) := by
  cases ps with
  | nil => trivial
  | cons p ps =>
    obtain ⟨pre, rest, heq, h2⟩ := h
    exact ⟨t ++ pre, rest, by rw [heq]; simp, h2⟩

theorem appear_bodies :
    ∀ (ts : List Block) (X : List Char),
      (∀ t ∈ ts, t.full = mkFull t.name t.signature t.body) →
      appearInOrder (ts.map Block.body) (X ++ joinNL (genTail (ts.map Block.full))) := by
  intro ts
  induction ts with
  | nil => intro X _; trivial
  | cons t ts ih =>
    intro X h
    have hful : t.full = mkFull t.name t.signature t.body := h t (by simp)
    simp only [List.map_cons]
    rw [joinNL_genTail_cons]
    refine ⟨X ++ (str "    @Test\n    fun `" ++ t.name ++ str "`()" ++
        t.signature ++ str " \x7b\n"),
      rbrace :: '\n' :: '\n' :: joinNL (genTail (ts.map Block.full)), ?_, ?_⟩
    · rw [hful, mkFull]
      simp [List.append_assoc]
    · have := ih [rbrace, '\n', '\n'] (fun u hu => h u (by simp [hu]))
      simpa using this

theorem blocksFor_inv :
    ∀ (docs : List (List Char)) (m : List Char) (t : Block),
      t ∈ blocksFor m docs →
      t.full = mkFull t.name t.signature t.body ∧ nOpen t.body = nClose t.body := by
  intro docs
  induction docs with
  | nil => intro m t h; simp [blocksFor] at h
  | cons d ds ih =>
    intro m t h
    simp only [blocksFor, List.mem_append] at h
    rcases h with h | h
    · exact extract_all_inv (List.mem_filter.mp h).1
    · exact ih m t h

/-! ## Synthesizer brace counting -/

theorem sum_map_msFlat (f : List Char → Nat) (hf : f [] = 0) (ms : List (List Char)) :
    ((msFlat ms).map f).sum = (ms.map f).sum := by
  induction ms with
  | nil => simp [msFlat]
  | cons m ms ih => simp [msFlat, hf, ih]

theorem genFront_sum_open (iname cat : List Char) (ms : List (List Char))
    (h1 : nOpen iname = 0) (h3 : nOpen cat = 0) :
    ((genFront iname cat ms).map nOpen).sum = 1 := by
  have himp : ∀ x ∈ ((sortStrs (detect_needed_imports ms)).map
      (fun imp => str "import " ++ imp)).map nOpen, x = 0 := by
    intro x hx
    obtain ⟨y, hy, rfl⟩ := List.mem_map.mp hx
    obtain ⟨imp, hm, rfl⟩ := List.mem_map.mp hy
    rw [nOpen_append, (detect_no_braces (mem_sortStrs.mp hm)).1]
    decide
  simp only [genFront, List.map_append, List.sum_append, List.map_cons,
    List.sum_cons, List.map_nil, List.sum_nil]
  rw [List.sum_eq_zero himp]
  simp [nOpen_append, h1, h3]
  decide

theorem genFront_sum_close (iname cat : List Char) (ms : List (List Char))
    (h2 : nClose iname = 0) (h4 : nClose cat = 0) :
    ((genFront iname cat ms).map nClose).sum = 0 := by
  have himp : ∀ x ∈ ((sortStrs (detect_needed_imports ms)).map
      (fun imp => str "import " ++ imp)).map nClose, x = 0 := by
    intro x hx
    obtain ⟨y, hy, rfl⟩ := List.mem_map.mp hx
    obtain ⟨imp, hm, rfl⟩ := List.mem_map.mp hy
    rw [nClose_append, (detect_no_braces (mem_sortStrs.mp hm)).2]
    decide
  simp only [genFront, List.map_append, List.sum_append, List.map_cons,
    List.sum_cons, List.map_nil, List.sum_nil]
  rw [List.sum_eq_zero himp]
  simp [nClose_append, h2, h4]
  decide

/-! ## Flat-grouping lemmas -/

theorem bucketOf_addBucket (acc : List ((List Char × List Char) × List (List Char)))
    (k k2 : List Char × List Char) (ts : List (List Char)) :
    bucketOf (addBucket acc k ts) k2 =
      if k2 = k then bucketOf acc k ++ ts else bucketOf acc k2 := by
  induction acc with
  | nil =>
    by_cases h : k2 = k
    · subst h; simp [addBucket, bucketOf]
    · have h2 : ¬ k = k2 := fun e => h e.symm
      simp [addBucket, bucketOf, h, h2]
  | cons e rest ih =>
    obtain ⟨k3, vs⟩ := e
    by_cases h3 : k3 = k
    · subst h3
      by_cases h2 : k3 = k2
      · subst h2; simp [addBucket, bucketOf]
      · have h4 : ¬ k2 = k3 := fun e => h2 e.symm
        simp [addBucket, bucketOf, h2, h4]
    · by_cases h2 : k3 = k2
      · subst h2
        have e1 : addBucket ((k3, vs) :: rest) k ts = (k3, vs) :: addBucket rest k ts := by
          simp [addBucket, h3]
        have e2 : bucketOf ((k3, vs) :: addBucket rest k ts) k3 = vs := by
          simp [bucketOf]
        have e3 : bucketOf ((k3, vs) :: rest) k3 = vs := by
          simp [bucketOf]
        rw [e1, e2, if_neg h3, e3]
      · simp [addBucket, bucketOf, h3, h2, ih]

theorem mem_bucketOf_groupFlatGo (methods : List (List Char)) :
    ∀ (l : List (List Char × List Char))
      (acc : List ((List Char × List Char) × List (List Char)))
      (k : List Char × List Char) (m : List Char),
      (m ∈ bucketOf (groupFlatGo methods acc l) k ↔
        m ∈ bucketOf acc k ∨
          (k ∈ l ∧ m ∈ methods.filter (fun x => flatHit k.1 x))) := by
  intro l
  induction l with
  | nil => intro acc k m; simp [groupFlatGo]
  | cons e rest ih =>
    intro acc k m
    obtain ⟨n, c⟩ := e
    simp only [groupFlatGo]
    by_cases he : (methods.filter (fun x => flatHit n x)).isEmpty
    · rw [if_pos he, ih]
      have hemp : methods.filter (fun x => flatHit n x) = [] :=
        List.isEmpty_iff.mp he
      constructor
      · rintro (h | ⟨h1, h2⟩)
        · exact Or.inl h
        · exact Or.inr ⟨by simp [h1], h2⟩
      · rintro (h | ⟨h1, h2⟩)
        · exact Or.inl h
        · rcases List.mem_cons.mp h1 with h1 | h1
          · subst h1
            rw [hemp] at h2
            simp at h2
          · exact Or.inr ⟨h1, h2⟩
    · rw [if_neg he, ih, bucketOf_addBucket]
      by_cases hk : k = (n, c)
      · subst hk
        rw [if_pos rfl]
        simp only [List.mem_append, List.mem_cons, true_or, true_and]
        tauto
      · rw [if_neg hk]
        simp only [List.mem_cons]
        constructor
        · rintro (h | ⟨h1, h2⟩)
          · exact Or.inl h
          · exact Or.inr ⟨Or.inr h1, h2⟩
        · rintro (h | ⟨h1, h2⟩)
          · exact Or.inl h
          · rcases h1 with h1 | h1
            · exact absurd h1 hk
            · exact Or.inr ⟨h1, h2⟩

theorem flatHit_iff (n m : List Char) :
    flatHit n m = true ↔ containsSub m n = true := by
  simp only [flatHit, Bool.or_eq_true]
  constructor
  · rintro (h | h)
    · exact containsSub_pat_tail h
    · exact h
  · exact Or.inr

/-! ## Category-resolver lemmas -/

theorem assocGet_none {l : List (List Char × List Char)} {n : List Char}
    (h : ∀ e ∈ l, e.1 ≠ n) : assocGet l n = none := by
  induction l with
  | nil => rfl
  | cons e rest ih =>
    obtain ⟨k, v⟩ := e
    have hk : ¬ k = n := h (k, v) (by simp)
    simp only [assocGet, if_neg hk]
    exact ih (fun e he => h e (by simp [he]))

theorem synthesizeAll_unknown :
    ∀ (tbl : Tbl) (n : List Char), get_category_for_interface n = str "unknown" →
      (∀ f ∈ (synthesizeAll tbl).1, f.1.1 ≠ n) ∧
      (∀ ms, (n, ms) ∈ tbl → n ∈ (synthesizeAll tbl).2) := by
  intro tbl
  induction tbl with
  | nil => intro n _; simp [synthesizeAll]
  | cons e rest ih =>
    intro n hn
    obtain ⟨k, ms0⟩ := e
    simp only [synthesizeAll]
    by_cases hc : get_category_for_interface k = str "unknown"
    · rw [if_pos hc]
      refine ⟨(ih n hn).1, ?_⟩
      intro ms hm
      rcases List.mem_cons.mp hm with hm | hm
      · simp [Prod.mk.injEq] at hm
        simp [hm.1]
      · simp [List.mem_cons]
        exact Or.inr ((ih n hn).2 ms hm)
    · rw [if_neg hc]
      constructor
      · intro f hf
        rcases List.mem_cons.mp hf with hf | hf
        · subst hf
          intro he
          simp only at he
          rw [he] at hc
          exact hc hn
        · exact (ih n hn).1 f hf
      · intro ms hm
        rcases List.mem_cons.mp hm with hm | hm
        · simp [Prod.mk.injEq] at hm
          rw [hm.1] at hn
          exact absurd hn hc
        · exact (ih n hn).2 ms hm

/-! ## Classifier lemmas -/

theorem identifyLoop_eq (s : List Char) :
    identifyLoop s =
      ((List.range s.length).filterMap (fun p => tryFake (s.drop p))).head? := by
  induction s with
  | nil => simp [identifyLoop]
  | cons c rest ih =>
    rw [show (c :: rest).length = rest.length + 1 from rfl, List.range_succ_eq_map]
    simp only [List.filterMap_cons, List.filterMap_map]
    cases hm : tryFake (c :: rest) with
    | some n => simp [identifyLoop, hm, List.drop]
    | none =>
      simp only [identifyLoop, hm, List.drop_zero]
      rw [ih]
      have hfn : ((fun p => tryFake (List.drop p (c :: rest))) ∘ Nat.succ) =
          (fun p => tryFake (List.drop p rest)) := by
        funext p
        rfl
      rw [hfn]

theorem scanBody_none_of_U_none {s : List Char} (h : scanBodyU 0 s = none) :
    scanBody 0 s = none := by
  cases hb : scanBody 0 s with
  | none => rfl
  | some p =>
    obtain ⟨b, r⟩ := p
    have := (scanBody_toU s 0 (by omega) b r hb).1
    rw [h] at this
    exact absurd this (by simp)

/-! ## Import-synthesizer characterizations -/

theorem mem_detect {ms : List (List Char)} {x : List Char} :
    x ∈ detect_needed_imports ms ↔
      (x = str "kotlin.test.Test" ∨
       x = str "kotlin.test.assertEquals" ∨
       (containsSub (joinNL ms) (str "assertTrue") = true ∧
         x = str "kotlin.test.assertTrue") ∨
       (containsSub (joinNL ms) (str "assertFalse") = true ∧
         x = str "kotlin.test.assertFalse") ∨
       (containsSub (joinNL ms) (str "assertNull") = true ∧
         x = str "kotlin.test.assertNull") ∨
       (containsSub (joinNL ms) (str "assertContentEquals") = true ∧
         x = str "kotlin.test.assertContentEquals") ∨
       (containsSub (joinNL ms) (str "assertIs<") = true ∧
         x = str "kotlin.test.assertIs") ∨
       ((containsSub (joinNL ms) (str "runTest") = true ∨
         containsSub (joinNL ms) (str "= runTest \x7b") = true) ∧
         x = str "kotlinx.coroutines.test.runTest")) := by
  simp only [detect_needed_imports, List.mem_append, List.mem_cons,
    List.not_mem_nil, or_false, mem_optIf, Bool.or_eq_true, or_assoc]

theorem mem_detect_v1 {ms : List (List Char)} {x : List Char} :
    x ∈ detect_needed_imports_v1 ms ↔
      (x = str "kotlin.test.Test" ∨
       x = str "kotlin.test.assertEquals" ∨
       (containsSub (joinNL ms) (str "assertTrue") = true ∧
         x = str "kotlin.test.assertTrue") ∨
       (containsSub (joinNL ms) (str "assertFalse") = true ∧
         x = str "kotlin.test.assertFalse") ∨
       (containsSub (joinNL ms) (str "assertNull") = true ∧
         x = str "kotlin.test.assertNull") ∨
       (containsSub (joinNL ms) (str "assertContentEquals") = true ∧
         x = str "kotlin.test.assertContentEquals") ∨
       (containsSub (joinNL ms) (str "assertIs") = true ∧
         x = str "kotlin.test.assertIs") ∨
       (containsSub (joinNL ms) (str "runTest") = true ∧
         x = str "kotlinx.coroutines.test.runTest")) := by
  simp only [detect_needed_imports_v1, List.mem_append, List.mem_cons,
    List.not_mem_nil, or_false, mem_optIf, or_assoc]

theorem joinNL_contains_mono {ms extra : List (List Char)} {tok : List Char}
    (h : containsSub (joinNL ms) tok = true) :
    containsSub (joinNL (ms ++ extra)) tok = true := by
  cases ms with
  | nil =>
    simp only [joinNL, containsSub] at h
    have : tok = [] := List.isEmpty_iff.mp h
    subst this
    exact containsSub_nil_pat _
  | cons m ms2 =>
    cases extra with
    | nil => simpa using h
    | cons e es =>
      rw [joinNL_append (by simp) (by simp)]
      exact containsSub_append_right _ h

theorem sum_map_congr {α : Type} (f g : α → Nat) :
    ∀ (l : List α), (∀ x ∈ l, f x = g x) → (l.map f).sum = (l.map g).sum := by
  intro l
  induction l with
  | nil => intro _; rfl
  | cons a t ih =>
    intro h
    simp only [List.map_cons, List.sum_cons]
    rw [h a (by simp), ih (fun x hx => h x (by simp [hx]))]

/-- In the v2 pipeline the per-artifact table holds exactly the blocks
classified to that artifact, in document-processing order then in-document
order, and every such block's `body` appears verbatim, in that order,
inside the v2 destination text. -/
theorem v2_round_trip_order (docs : List (List Char)) (iface cat : List Char) :
    tblGet (processDocs docs).1 iface = (blocksFor iface docs).map Block.full ∧
    appearInOrder ((blocksFor iface docs).map Block.body)
      (generate_test_file iface cat (tblGet (processDocs docs).1 iface)) := by
  refine ⟨processDocs_tbl docs iface, ?_⟩
  rw [processDocs_tbl docs iface, generate_decomp]
  have h := appear_bodies (blocksFor iface docs)
      (joinNL (genFront iface cat ((blocksFor iface docs).map Block.full)) ++ ['\n'])
      (fun t ht => (blocksFor_inv docs iface t ht).1)
  simpa [List.append_assoc] using h

/-- The re-indented method texts appear verbatim, in order, in any text of
the form `X ++ (v1MethodSeg ms ++ Y)`. -/
theorem appear_v1seg :
    ∀ (ms : List (List Char)) (X Y : List Char),
      appearInOrder (ms.map indentMethod) (X ++ (v1MethodSeg ms ++ Y)) := by
  intro ms
  induction ms with
  | nil => intro X Y; trivial
  | cons m rest ih =>
    intro X Y
    simp only [List.map_cons]
    refine ⟨X ++ ['\n'], '\n' :: (v1MethodSeg rest ++ Y), ?_, ?_⟩
    · simp [v1MethodSeg, List.append_assoc]
    · have h := ih ['\n'] Y
      simpa using h

/-! ## Claim theorems -/

/-- C1 fails as stated for the v1 synthesizer: the extracted block's body
spans two lines, the source contains it verbatim, but the v1 destination
text does not, because line 223 re-indents every method line by four
spaces, breaking the body at its interior newline. -/
theorem c1_counterexample :
    (extract_all_test_methods c1method).map Block.body = [c1body] ∧
    containsSub c1method c1body = true ∧
    containsSub (generate_test_file_v1 (str "Foo") (str "basic") [c1method])
      c1body = false :=
  ⟨by decide, by decide, by decide⟩

/-- C1 amended: in the v2 pipeline the per-artifact table holds exactly the
blocks classified to that artifact, in document-processing order then
in-document order, and every such block's `body` appears verbatim, in that
order, inside the v2 destination text; the v1 synthesizer instead embeds
each assigned method text with every one of its lines re-indented by four
spaces, in first-seen order, so a body spanning several lines does not
appear verbatim there. -/
theorem c1_amended :
    (∀ (docs : List (List Char)) (iface cat : List Char),
      tblGet (processDocs docs).1 iface = (blocksFor iface docs).map Block.full ∧
      appearInOrder ((blocksFor iface docs).map Block.body)
        (generate_test_file iface cat (tblGet (processDocs docs).1 iface))) ∧
    (∀ (iname cat : List Char) (ms : List (List Char)),
      appearInOrder (ms.map indentMethod) (generate_test_file_v1 iname cat ms)) := by
  constructor
  · exact v2_round_trip_order
  · intro iname cat ms
    have h := appear_v1seg ms
      (copyright_header ++ ['\n'] ++ joinNL (v1ImportLines iname cat ms) ++ ['\n']
        ++ (str "\n/**\n * Tests for " ++ iname ++ str " SAM interface.\n */\nclass "
            ++ iname ++ str "Test \x7b\n"))
      (str "\x7d\n")
    simpa [generate_test_file_v1, List.append_assoc] using h

/-- C2 fails as stated: the delimiter balance of `c2doc` never returns to
zero, yet `extract_sam_interfaces` emits one truncated block instead of
aborting the document with zero blocks. -/
theorem c2_counterexample :
    neverBalances c2doc = true ∧ (extract_sam_interfaces c2doc).length = 1 := by
  exact ⟨by decide, by decide⟩

/-- C2 amended: on a body whose balance never closes, the v2 scanner
produces nothing (no truncated block); `split_sam_interfaces` instead emits
the block truncated at end-of-text; no diagnostic exists in either, and
documents are processed independently, so later documents are unaffected. -/
theorem c2_amended :
    (∀ s : List Char, scanBodyU 0 s = none → scanBody 0 s = none) ∧
    extract_sam_interfaces c2doc =
      [{ name := str "Foo", category := str "basic", comment := str "/**",
         ifaceText := str "fun interface Foo \x7b\n    fun bar()" }] ∧
    (∀ (d : List Char) (ds : List (List Char)) (iface : List Char),
      blocksFor iface (d :: ds) =
        (extract_all_test_methods d).filter
          (fun t => decide (identify_interface t.body = some iface))
        ++ blocksFor iface ds) :=
  ⟨fun _ h => scanBody_none_of_U_none h, by decide, fun _ _ _ => rfl⟩

theorem c2_amended_witness :
    scanBodyU 0 (str "abc") = none ∧ scanBody 0 (str "abc") = none :=
  ⟨by decide, c2_amended.1 (str "abc") (by decide)⟩

/-- C3 fails as stated: in `fakeFoo (x)` no factory marker is immediately
followed by an invocation delimiter, so the claim requires `none`, but the
classifier returns `Foo` because the code's pattern allows whitespace
before the delimiter. -/
theorem c3_counterexample :
    identify_interface c3body = some (str "Foo") ∧
    identifyImmediate c3body = none :=
  ⟨by decide, by decide⟩

/-- C3 amended: the classifier returns the CapitalizedName of the leftmost
factory marker followed, possibly after whitespace, by a parenthesis, angle
bracket or brace (`none` when there is no such marker); the orchestrator
records exactly the unclassified blocks as warnings instead of failing. -/
theorem c3_amended :
    (∀ s : List Char, identify_interface s =
      ((List.range s.length).filterMap (fun p => tryFake (s.drop p))).head?) ∧
    (∀ docs : List (List Char), (processDocs docs).2 =
      (allBlocks docs).filter (fun t => decide (identify_interface t.body = none))) :=
  ⟨identifyLoop_eq, processDocs_warns⟩

/-- C4 fails as stated: `c4doc` yields a block whose `full` text has one
opening and two closing braces, because the signature region captured by
the pattern may contain a stray closing brace. -/
theorem c4_counterexample :
    (extract_all_test_methods c4doc).map (fun t => (nOpen t.full, nClose t.full)) =
      [(1, 2)] := by
  decide

/-- C4 amended: every extracted block's `full` text contains its `body`
verbatim; and whenever the captured name and signature contain no brace
characters, the `full` text has equal open and close brace counts. -/
theorem c4_amended (content : List Char) (t : Block)
    (h : t ∈ extract_all_test_methods content) :
    (∃ pre post, t.full = pre ++ t.body ++ post) ∧
    (nOpen t.name = 0 → nClose t.name = 0 →
      nOpen t.signature = 0 → nClose t.signature = 0 →
      nOpen t.full = nClose t.full) := by
  obtain ⟨hful, hbal⟩ := extract_all_inv h
  constructor
  · exact ⟨str "    @Test\n    fun `" ++ t.name ++ str "`()" ++ t.signature ++
      str " \x7b\n", [rbrace], by rw [hful, mkFull]⟩
  · intro h1 h2 h3 h4
    obtain ⟨e1, e2⟩ : nOpen (str "    @Test\n    fun `") = 0 ∧
        nClose (str "    @Test\n    fun `") = 0 := by decide
    obtain ⟨e3, e4⟩ : nOpen (str "`()") = 0 ∧ nClose (str "`()") = 0 := by decide
    obtain ⟨e5, e6⟩ : nOpen (str " \x7b\n") = 1 ∧ nClose (str " \x7b\n") = 0 := by
      decide
    obtain ⟨e7, e8⟩ : nOpen [rbrace] = 0 ∧ nClose [rbrace] = 1 := by decide
    rw [hful, mkFull]
    simp only [nOpen_append, nClose_append]
    omega

theorem c4_amended_witness :
    nOpen c4blk.full = nClose c4blk.full ∧
    (∃ pre post, c4blk.full = pre ++ c4blk.body ++ post) :=
  have h := c4_amended c4good c4blk (by decide)
  ⟨h.2 (by decide) (by decide) (by decide) (by decide), h.1⟩

/-- C5: in flat-mode distribution a method is assigned to a candidate
exactly when the candidate's marker name occurs literally in the method
text (the disjunct testing the factory form is redundant, since the name is
contained in it), and one method may be assigned to several candidates, as
the two-candidate instance shows. -/
theorem c5_flat_assignment :
    (∀ (methods : List (List Char)) (mapping : List (List Char × List Char))
      (n c m : List Char),
      m ∈ bucketOf (group_tests_flat methods mapping) (n, c) ↔
        ((n, c) ∈ mapping ∧ m ∈ methods ∧ containsSub m n = true)) ∧
    (str "val x = fakeWidget(1) + fakeGadget(2)" ∈
      bucketOf (group_tests_flat [str "val x = fakeWidget(1) + fakeGadget(2)"]
        [(str "Widget", str "basic"), (str "Gadget", str "basic")])
        (str "Widget", str "basic") ∧
     str "val x = fakeWidget(1) + fakeGadget(2)" ∈
      bucketOf (group_tests_flat [str "val x = fakeWidget(1) + fakeGadget(2)"]
        [(str "Widget", str "basic"), (str "Gadget", str "basic")])
        (str "Gadget", str "basic")) := by
  constructor
  · intro methods mapping n c m
    rw [group_tests_flat, mem_bucketOf_groupFlatGo]
    simp only [bucketOf, List.not_mem_nil, false_or]
    rw [List.mem_filter]
    constructor
    · rintro ⟨h1, h2, h3⟩
      exact ⟨h1, h2, (flatHit_iff n m).mp h3⟩
    · rintro ⟨h1, h2, h3⟩
      exact ⟨h1, h2, (flatHit_iff n m).mpr h3⟩
  · exact ⟨by decide, by decide⟩

/-- C6: an artifact name absent from the static category table resolves to
the sentinel `unknown`; for such an artifact the generation loop produces
no destination document and records the name in the separate
unresolved-category list. -/
theorem c6_unknown_category (n : List Char) :
    ((∀ e ∈ category_map, e.1 ≠ n) → get_category_for_interface n = str "unknown") ∧
    (get_category_for_interface n = str "unknown" →
      ∀ tbl : Tbl, (∀ f ∈ (synthesizeAll tbl).1, f.1.1 ≠ n) ∧
        (∀ ms, (n, ms) ∈ tbl → n ∈ (synthesizeAll tbl).2)) := by
  constructor
  · intro h
    rw [get_category_for_interface, assocGet_none h]
    rfl
  · intro h tbl
    exact synthesizeAll_unknown tbl n h

theorem c6_unknown_category_witness :
    get_category_for_interface (str "Orphan") = str "unknown" ∧
    (∀ f ∈ (synthesizeAll [(str "Orphan", [])]).1, f.1.1 ≠ str "Orphan") ∧
    str "Orphan" ∈ (synthesizeAll [(str "Orphan", [])]).2 := by
  have h1 : get_category_for_interface (str "Orphan") = str "unknown" :=
    (c6_unknown_category (str "Orphan")).1 (by decide)
  refine ⟨h1, ((c6_unknown_category (str "Orphan")).2 h1 [(str "Orphan", [])]).1, ?_⟩
  exact ((c6_unknown_category (str "Orphan")).2 h1 [(str "Orphan", [])]).2 [] (by simp)

/-- C7: the import synthesizer never under-includes (a rule-table token
present in the aggregated text forces its import into the set) and is
monotone under appending further method text, in both script versions. -/
theorem c7_import_monotone :
    (∀ (ms : List (List Char)) (tok imp : List Char), (tok, imp) ∈ token_rules →
      containsSub (joinNL ms) tok = true → imp ∈ detect_needed_imports ms) ∧
    (∀ (ms extra : List (List Char)) (imp : List Char),
      imp ∈ detect_needed_imports ms → imp ∈ detect_needed_imports (ms ++ extra)) ∧
    (∀ (ms : List (List Char)) (tok imp : List Char), (tok, imp) ∈ token_rules_v1 →
      containsSub (joinNL ms) tok = true → imp ∈ detect_needed_imports_v1 ms) ∧
    (∀ (ms extra : List (List Char)) (imp : List Char),
      imp ∈ detect_needed_imports_v1 ms →
        imp ∈ detect_needed_imports_v1 (ms ++ extra)) := by
  refine ⟨?_, ?_, ?_, ?_⟩
  · intro ms tok imp hrule hc
    simp only [token_rules, List.mem_cons, Prod.mk.injEq, List.not_mem_nil,
      or_false] at hrule
    rw [mem_detect]
    rcases hrule with ⟨rfl, rfl⟩ | ⟨rfl, rfl⟩ | ⟨rfl, rfl⟩ | ⟨rfl, rfl⟩ |
      ⟨rfl, rfl⟩ | ⟨rfl, rfl⟩
    · exact Or.inr (Or.inr (Or.inl ⟨hc, rfl⟩))
    · exact Or.inr (Or.inr (Or.inr (Or.inl ⟨hc, rfl⟩)))
    · exact Or.inr (Or.inr (Or.inr (Or.inr (Or.inl ⟨hc, rfl⟩))))
    · exact Or.inr (Or.inr (Or.inr (Or.inr (Or.inr (Or.inl ⟨hc, rfl⟩)))))
    · exact Or.inr (Or.inr (Or.inr (Or.inr (Or.inr (Or.inr (Or.inl ⟨hc, rfl⟩))))))
    · exact Or.inr (Or.inr (Or.inr (Or.inr (Or.inr (Or.inr (Or.inr
        ⟨Or.inl hc, rfl⟩))))))
  · intro ms extra imp h
    rw [mem_detect] at h ⊢
    rcases h with h | h | ⟨hc, rfl⟩ | ⟨hc, rfl⟩ | ⟨hc, rfl⟩ | ⟨hc, rfl⟩ |
      ⟨hc, rfl⟩ | ⟨hc, rfl⟩
    · exact Or.inl h
    · exact Or.inr (Or.inl h)
    · exact Or.inr (Or.inr (Or.inl ⟨joinNL_contains_mono hc, rfl⟩))
    · exact Or.inr (Or.inr (Or.inr (Or.inl ⟨joinNL_contains_mono hc, rfl⟩)))
    · exact Or.inr (Or.inr (Or.inr (Or.inr (Or.inl ⟨joinNL_contains_mono hc, rfl⟩))))
    · exact Or.inr (Or.inr (Or.inr (Or.inr (Or.inr
        (Or.inl ⟨joinNL_contains_mono hc, rfl⟩)))))
    · exact Or.inr (Or.inr (Or.inr (Or.inr (Or.inr (Or.inr
        (Or.inl ⟨joinNL_contains_mono hc, rfl⟩))))))
    · rcases hc with hc | hc
      · exact Or.inr (Or.inr (Or.inr (Or.inr (Or.inr (Or.inr (Or.inr
          ⟨Or.inl (joinNL_contains_mono hc), rfl⟩))))))
      · exact Or.inr (Or.inr (Or.inr (Or.inr (Or.inr (Or.inr (Or.inr
          ⟨Or.inr (joinNL_contains_mono hc), rfl⟩))))))
  · intro ms tok imp hrule hc
    simp only [token_rules_v1, List.mem_cons, Prod.mk.injEq, List.not_mem_nil,
      or_false] at hrule
    rw [mem_detect_v1]
    rcases hrule with ⟨rfl, rfl⟩ | ⟨rfl, rfl⟩ | ⟨rfl, rfl⟩ | ⟨rfl, rfl⟩ |
      ⟨rfl, rfl⟩ | ⟨rfl, rfl⟩
    · exact Or.inr (Or.inr (Or.inl ⟨hc, rfl⟩))
    · exact Or.inr (Or.inr (Or.inr (Or.inl ⟨hc, rfl⟩)))
    · exact Or.inr (Or.inr (Or.inr (Or.inr (Or.inl ⟨hc, rfl⟩))))
    · exact Or.inr (Or.inr (Or.inr (Or.inr (Or.inr (Or.inl ⟨hc, rfl⟩)))))
    · exact Or.inr (Or.inr (Or.inr (Or.inr (Or.inr (Or.inr (Or.inl ⟨hc, rfl⟩))))))
    · exact Or.inr (Or.inr (Or.inr (Or.inr (Or.inr (Or.inr (Or.inr ⟨hc, rfl⟩))))))
  · intro ms extra imp h
    rw [mem_detect_v1] at h ⊢
    rcases h with h | h | ⟨hc, rfl⟩ | ⟨hc, rfl⟩ | ⟨hc, rfl⟩ | ⟨hc, rfl⟩ |
      ⟨hc, rfl⟩ | ⟨hc, rfl⟩
    · exact Or.inl h
    · exact Or.inr (Or.inl h)
    · exact Or.inr (Or.inr (Or.inl ⟨joinNL_contains_mono hc, rfl⟩))
    · exact Or.inr (Or.inr (Or.inr (Or.inl ⟨joinNL_contains_mono hc, rfl⟩)))
    · exact Or.inr (Or.inr (Or.inr (Or.inr (Or.inl ⟨joinNL_contains_mono hc, rfl⟩))))
    · exact Or.inr (Or.inr (Or.inr (Or.inr (Or.inr
        (Or.inl ⟨joinNL_contains_mono hc, rfl⟩)))))
    · exact Or.inr (Or.inr (Or.inr (Or.inr (Or.inr (Or.inr
        (Or.inl ⟨joinNL_contains_mono hc, rfl⟩))))))
    · exact Or.inr (Or.inr (Or.inr (Or.inr (Or.inr (Or.inr (Or.inr
        ⟨joinNL_contains_mono hc, rfl⟩))))))

theorem c7_import_monotone_witness :
    str "kotlin.test.assertTrue" ∈ detect_needed_imports [str "assertTrue(x)"] ∧
    str "kotlin.test.assertTrue" ∈
      detect_needed_imports ([str "assertTrue(x)"] ++ [str "runTest \x7b"]) :=
  have h1 := c7_import_monotone.1 [str "assertTrue(x)"] (str "assertTrue")
    (str "kotlin.test.assertTrue") (by decide) (by decide)
  ⟨h1, c7_import_monotone.2.1 [str "assertTrue(x)"] [str "runTest \x7b"]
    (str "kotlin.test.assertTrue") h1⟩

/-- C8 fails as stated: nothing constrains the ArtifactKey, and a key whose
name contains a brace yields unbalanced output even with no blocks at all. -/
theorem c8_counterexample :
    nOpen (generate_test_file (str "A\x7b") (str "basic") []) = 5 ∧
    nClose (generate_test_file (str "A\x7b") (str "basic") []) = 1 :=
  ⟨by decide, by decide⟩

/-- C8 amended: for an ArtifactKey whose name and category contain no brace
characters and method texts that are each brace-balanced, the synthesized
destination text is brace-balanced.  The synthesizer is modelled as a pure
function: it returns text and performs no effect. -/
theorem c8_amended (iname cat : List Char) (ms : List (List Char))
    (h1 : nOpen iname = 0) (h2 : nClose iname = 0)
    (h3 : nOpen cat = 0) (h4 : nClose cat = 0)
    (h5 : ∀ m ∈ ms, nOpen m = nClose m) :
    nOpen (generate_test_file iname cat ms) =
      nClose (generate_test_file iname cat ms) := by
  rw [generate_test_file, nOpen_joinNL, nClose_joinNL, List.map_append,
    List.map_append, List.sum_append, List.sum_append,
    genFront_sum_open iname cat ms h1 h3, genFront_sum_close iname cat ms h2 h4,
    genTail, List.map_append, List.map_append, List.sum_append, List.sum_append,
    sum_map_msFlat nOpen rfl, sum_map_msFlat nClose rfl,
    sum_map_congr nOpen nClose ms h5]
  have e1 : (List.map nOpen [[rbrace]]).sum = 0 := by decide
  have e2 : (List.map nClose [[rbrace]]).sum = 1 := by decide
  omega

theorem c8_amended_witness :
    nOpen (generate_test_file (str "Foo") (str "basic")
        [str "fun f() \x7b \x7d"]) =
      nClose (generate_test_file (str "Foo") (str "basic")
        [str "fun f() \x7b \x7d"]) :=
  c8_amended (str "Foo") (str "basic") [str "fun f() \x7b \x7d"]
    (by decide) (by decide) (by decide) (by decide)
    (by intro m hm; rw [List.mem_singleton] at hm; subst hm; decide)

/-- C9: the v2 body scan accepts a unit exactly when the spec's
delimiter-balance scan accepts it with every position at most two brace
levels below the body start; in the three-unit demo document the deeply
nested middle unit is silently omitted while both neighbours are still
extracted. -/
theorem c9_depth_bound :
    (∀ (s b r : List Char), scanBody 0 s = some (b, r) ↔
      (scanBodyU 0 s = some (b, r) ∧
        (depthsFrom 0 b).all (fun x => decide (x ≤ 2)) = true)) ∧
    (extract_all_test_methods c9demo).map Block.name = [str "one", str "three"] := by
  constructor
  · intro s b r
    constructor
    · intro h
      exact scanBody_toU s 0 (by omega) b r h
    · rintro ⟨hU, hall⟩
      exact scanBody_ofU s 0 b r hU hall
  · decide

/-- C10: the v2 import set always contains the two baseline imports, is
always inside the fixed eight-element universe, and contains the
type-assertion import exactly when the text contains the token with the
generic angle bracket. -/
theorem c10_universe (ms : List (List Char)) :
    str "kotlin.test.Test" ∈ detect_needed_imports ms ∧
    str "kotlin.test.assertEquals" ∈ detect_needed_imports ms ∧
    (∀ x ∈ detect_needed_imports ms, x ∈ import_universe) ∧
    (str "kotlin.test.assertIs" ∈ detect_needed_imports ms ↔
      containsSub (joinNL ms) (str "assertIs<") = true) := by
  refine ⟨by rw [mem_detect]; exact Or.inl rfl,
    by rw [mem_detect]; exact Or.inr (Or.inl rfl),
    fun x hx => detect_subset hx, ?_⟩
  rw [mem_detect]
  constructor
  · rintro (h | h | ⟨_, h⟩ | ⟨_, h⟩ | ⟨_, h⟩ | ⟨_, h⟩ | ⟨hc, _⟩ | ⟨_, h⟩)
    · exact absurd h (by decide)
    · exact absurd h (by decide)
    · exact absurd h (by decide)
    · exact absurd h (by decide)
    · exact absurd h (by decide)
    · exact absurd h (by decide)
    · exact hc
    · exact absurd h (by decide)
  · intro hc
    exact Or.inr (Or.inr (Or.inr (Or.inr (Or.inr (Or.inr (Or.inl ⟨hc, rfl⟩))))))

theorem c10_universe_witness :
    str "kotlin.test.Test" ∈ detect_needed_imports [] ∧
    str "kotlin.test.Test" ∈ import_universe ∧
    (str "kotlin.test.assertIs" ∈ detect_needed_imports [] ↔
      containsSub (joinNL []) (str "assertIs<") = true) :=
  ⟨(c10_universe []).1,
   (c10_universe []).2.2.1 (str "kotlin.test.Test") (c10_universe []).1,
   (c10_universe []).2.2.2⟩

end Fakt
